import Mathlib

/-!
# Verification of the UPT adaptive protocol-routing subsystem

Shallow embedding of the gossip-synchronized knowledge store, the adaptive
router, the decision ledger, the load balancer fallback and the
fingerprint/identification pipeline of the UPT repository
(`Agent/agent.py`, `Shared/load_balancer.py`, `Sniffer/sniffer.py`,
`Translator/translator.py`).

Python `dict`s are modelled as association lists (`List (K × V)`) with
first-match lookup; `dict` assignment updates the first matching entry in
place or appends a fresh entry at the end, exactly as insertion-ordered
Python dictionaries behave.  Python integers are modelled as `Int`,
Python floats arising from count arithmetic as `ℚ`, byte strings as
`List (Fin 256)`.
-/

namespace UPT

variable {K : Type} {V : Type} {W : Type} [DecidableEq K]

/-- First-match lookup in an association list: `m.get(k)` on a Python dict
(which has unique keys; for general lists this returns the first match). -/
def findVal : List (K × V) → K → Option V
  | [], _ => none
  | (k', v) :: rest, k => if k' = k then some v else findVal rest k

/-- Python dict assignment `m[k] = v`: replace the value of the first entry
with key `k`, or append `(k, v)` when `k` is absent. -/
def setVal : List (K × V) → K → V → List (K × V)
  | [], k, v => [(k, v)]
  | (k', v') :: rest, k, v =>
      if k' = k then (k, v) :: rest else (k', v') :: setVal rest k v

/-- The keys of an association list, in order. -/
def keysOf (m : List (K × V)) : List K := m.map Prod.fst

theorem findVal_eq_none_of_not_mem {m : List (K × V)} {k : K}
    (h : k ∉ keysOf m) : findVal m k = none := by
  induction m with
  | nil => rfl
  | cons p rest ih =>
      obtain ⟨k', v'⟩ := p
      simp only [keysOf, List.map_cons, List.mem_cons] at h
      push_neg at h
      have hne : k' ≠ k := fun e => h.1 e.symm
      simp only [findVal, if_neg hne]
      exact ih (by simpa [keysOf] using h.2)

theorem mem_of_findVal_eq_some {m : List (K × V)} {k : K} {v : V}
    (h : findVal m k = some v) : (k, v) ∈ m := by
  induction m with
  | nil => simp [findVal] at h
  | cons p rest ih =>
      obtain ⟨k', v'⟩ := p
      by_cases hk : k' = k
      · subst hk
        rw [findVal, if_pos rfl] at h
        cases h
        exact List.mem_cons_self _ _
      · rw [findVal, if_neg hk] at h
        exact List.mem_cons_of_mem _ (ih h)

theorem findVal_setVal (m : List (K × V)) (k : K) (v : V) (k' : K) :
    findVal (setVal m k v) k' = if k = k' then some v else findVal m k' := by
  induction m with
  | nil => simp [setVal, findVal]
  | cons p rest ih =>
      obtain ⟨k0, v0⟩ := p
      by_cases h0 : k0 = k
      · subst h0
        by_cases h1 : k0 = k'
        · subst h1; simp [setVal, findVal]
        · simp [setVal, findVal, h1]
      · by_cases h1 : k0 = k'
        · subst h1
          have : ¬ k = k0 := fun h => h0 h.symm
          simp [setVal, h0, findVal, this]
        · simp [setVal, h0, findVal, h1, ih]

/-- The generic shape of `UPTAgent.merge_knowledge`'s loops: walk the remote
dict and for each remote entry `(k, w)` set `local[k] := f local.get(k) w`
(insert when absent, combine when present). -/
def updFold (f : Option V → W → V) (loc : List (K × V)) (remote : List (K × W)) :
    List (K × V) :=
  remote.foldl (fun acc kw => setVal acc kw.1 (f (findVal acc kw.1) kw.2)) loc

theorem findVal_updFold (f : Option V → W → V) (loc : List (K × V))
    (remote : List (K × W)) (hnd : (keysOf remote).Nodup) (k : K) :
    findVal (updFold f loc remote) k =
      match findVal remote k with
      | none => findVal loc k
      | some w => some (f (findVal loc k) w) := by
  induction remote generalizing loc with
  | nil => simp [updFold, findVal]
  | cons p rest ih =>
      obtain ⟨k0, w0⟩ := p
      simp only [keysOf, List.map_cons, List.nodup_cons] at hnd
      have hstep : updFold f loc ((k0, w0) :: rest) =
          updFold f (setVal loc k0 (f (findVal loc k0) w0)) rest := rfl
      rw [hstep, ih _ (by simpa [keysOf] using hnd.2)]
      by_cases hk : k0 = k
      · subst hk
        have hrest : findVal rest k0 = none :=
          findVal_eq_none_of_not_mem (by simpa [keysOf] using hnd.1)
        simp [findVal, hrest, findVal_setVal]
      · simp only [findVal, if_neg hk]
        cases hr : findVal rest k with
        | none => simp [findVal_setVal, hk]
        | some w => simp [findVal_setVal, hk]

/-- One entry of `protocol_knowledge['protocols']`: the dict
`{'name': ..., 'count': ...}` built by `UPTAgent.load_knowledge_base`. -/
structure ProtoData where
  name : String
  count : Int
  deriving DecidableEq, Repr

/-- The protocol map `protocol_knowledge['protocols']`. -/
abbrev Protocols := List (String × ProtoData)

/-- The nested map `protocol_knowledge['translation_patterns']`:
source protocol → (target protocol → success count). -/
abbrev Patterns := List (String × List (String × Int))

/-- The protocol-merging loop of `UPTAgent.merge_knowledge`: an unknown
cluster id inserts the remote record, a known one adds the remote count
to the local one (keeping the local name). -/
def mergeProtos (loc remote : Protocols) : Protocols :=
  updFold (fun o pd =>
    match o with
    | none => pd
    | some cur => ⟨cur.name, cur.count + pd.count⟩) loc remote

/-- The inner target-count loop of `UPTAgent.merge_knowledge`: an unknown
target is inserted with the remote count, a known one has the counts
summed. -/
def mergeCounts (loc remote : List (String × Int)) : List (String × Int) :=
  updFold (fun o c =>
    match o with
    | none => c
    | some lc => lc + c) loc remote

/-- The translation-pattern loop of `UPTAgent.merge_knowledge`: a missing
source key is first bound to an empty dict, then every remote target count
is inserted or summed into it. -/
def mergePatterns (loc remote : Patterns) : Patterns :=
  updFold (fun o tgts =>
    match o with
    | none => mergeCounts [] tgts
    | some cur => mergeCounts cur tgts) loc remote

/-- The count stored for a protocol key (the spec's "protocol counts"). -/
def countOf (m : Protocols) (k : String) : Option Int :=
  (findVal m k).map ProtoData.count

/-- The success count stored for a (source, target) pair. -/
def findVal2 (m : Patterns) (src tgt : String) : Option Int :=
  match findVal m src with
  | none => none
  | some tgts => findVal tgts tgt

/-- A pattern map has no duplicate keys, outer or inner (true of every
Python dict-of-dicts). -/
def PatternsWF (m : Patterns) : Prop :=
  (keysOf m).Nodup ∧ ∀ p ∈ m, (keysOf p.2).Nodup

instance (m : Patterns) : Decidable (PatternsWF m) := by
  unfold PatternsWF; infer_instance

theorem countOf_mergeProtos (loc remote : Protocols)
    (hnd : (keysOf remote).Nodup) (k : String) :
    countOf (mergeProtos loc remote) k =
      match countOf remote k with
      | none => countOf loc k
      | some c =>
          match countOf loc k with
          | none => some c
          | some lc => some (lc + c) := by
  unfold countOf mergeProtos
  rw [findVal_updFold _ _ _ hnd]
  cases hr : findVal remote k with
  | none => simp
  | some pd =>
      cases hl : findVal loc k with
      | none => simp
      | some cur => simp

theorem findVal_mergeCounts (loc remote : List (String × Int))
    (hnd : (keysOf remote).Nodup) (k : String) :
    findVal (mergeCounts loc remote) k =
      match findVal remote k with
      | none => findVal loc k
      | some c =>
          match findVal loc k with
          | none => some c
          | some lc => some (lc + c) := by
  unfold mergeCounts
  rw [findVal_updFold _ _ _ hnd]
  cases hr : findVal remote k with
  | none => rfl
  | some c => cases hl : findVal loc k with
      | none => rfl
      | some lc => rfl

theorem findVal2_mergePatterns (loc remote : Patterns)
    (hwf : PatternsWF remote) (src tgt : String) :
    findVal2 (mergePatterns loc remote) src tgt =
      match findVal2 remote src tgt with
      | none => findVal2 loc src tgt
      | some c =>
          match findVal2 loc src tgt with
          | none => some c
          | some lc => some (lc + c) := by
  unfold findVal2 mergePatterns
  rw [findVal_updFold _ _ _ hwf.1]
  cases hr : findVal remote src with
  | none => rfl
  | some rtgts =>
      have hinner : (keysOf rtgts).Nodup :=
        hwf.2 (src, rtgts) (mem_of_findVal_eq_some hr)
      cases hl : findVal loc src with
      | none =>
          simp only
          rw [findVal_mergeCounts _ _ hinner]
          cases hrt : findVal rtgts tgt with
          | none => simp [findVal]
          | some c => simp [findVal]
      | some ltgts =>
          simp only
          rw [findVal_mergeCounts _ _ hinner]

theorem findVal_map_val (m : List (K × V)) (g : V → W) (k : K) :
    findVal (m.map (fun p => (p.1, g p.2))) k = (findVal m k).map g := by
  induction m with
  | nil => rfl
  | cons p rest ih =>
      obtain ⟨k', v'⟩ := p
      by_cases hk : k' = k
      · subst hk; simp [findVal]
      · simp [findVal, hk, ih]

theorem findVal_filter (m : List (K × V)) (pred : K × V → Bool)
    (hnd : (keysOf m).Nodup) (k : K) :
    findVal (m.filter pred) k =
      match findVal m k with
      | none => none
      | some v => if pred (k, v) then some v else none := by
  induction m with
  | nil => rfl
  | cons p rest ih =>
      obtain ⟨k', v'⟩ := p
      simp only [keysOf, List.map_cons, List.nodup_cons] at hnd
      by_cases hk : k' = k
      · subst hk
        have hrest : findVal (rest.filter pred) k' = none := by
          apply findVal_eq_none_of_not_mem
          intro hmem
          exact hnd.1 (by
            simp only [keysOf, List.mem_map] at hmem ⊢
            obtain ⟨q, hq, hqk⟩ := hmem
            exact ⟨q, List.mem_of_mem_filter hq, hqk⟩)
        by_cases hp : pred (k', v')
        · simp [List.filter_cons, hp, findVal]
        · simp [List.filter_cons, hp, findVal, hrest]
      · by_cases hp : pred (k', v')
        · simp [List.filter_cons, hp, findVal, hk, ih (by simpa [keysOf] using hnd.2)]
        · simp [List.filter_cons, hp, findVal, hk, ih (by simpa [keysOf] using hnd.2)]

/-- `UPTAgent.prune_old_patterns`: drop every `(source, target)` entry whose
success count is below 3, then drop every source left with an empty target
dict. -/
def prunePatterns (patterns : Patterns) : Patterns :=
  (patterns.map (fun p => (p.1, p.2.filter (fun tc => decide (3 ≤ tc.2))))).filter
    (fun p => !p.2.isEmpty)

theorem findVal_prunePatterns (patterns : Patterns) (hwf : PatternsWF patterns)
    (src : String) :
    findVal (prunePatterns patterns) src =
      match findVal patterns src with
      | none => none
      | some tgts =>
          let kept := tgts.filter (fun tc => decide (3 ≤ tc.2))
          if kept.isEmpty then none else some kept := by
  unfold prunePatterns
  have hmapnd : (keysOf (patterns.map
      (fun p => (p.1, p.2.filter (fun tc => decide (3 ≤ tc.2)))))).Nodup := by
    simpa [keysOf, List.map_map, Function.comp] using hwf.1
  rw [findVal_filter _ _ hmapnd, findVal_map_val]
  cases h : findVal patterns src with
  | none => rfl
  | some tgts =>
      simp only [Option.map_some]
      by_cases he : (tgts.filter (fun tc => decide (3 ≤ tc.2))).isEmpty
      · simp [he]
      · have hb : (tgts.filter (fun tc => decide (3 ≤ tc.2))).isEmpty = false := by
          simpa using he
        simp [hb]

theorem findVal2_prunePatterns (patterns : Patterns) (hwf : PatternsWF patterns)
    (src tgt : String) :
    findVal2 (prunePatterns patterns) src tgt =
      match findVal2 patterns src tgt with
      | none => none
      | some c => if c < 3 then none else some c := by
  unfold findVal2
  rw [findVal_prunePatterns patterns hwf src]
  cases h : findVal patterns src with
  | none => rfl
  | some tgts =>
      have hinner : (keysOf tgts).Nodup :=
        hwf.2 (src, tgts) (mem_of_findVal_eq_some h)
      simp only
      by_cases he : (tgts.filter (fun tc => decide (3 ≤ tc.2))).isEmpty
      · simp only [he, if_pos]
        cases ht : findVal tgts tgt with
        | none => rfl
        | some c =>
            have hft := findVal_filter tgts (fun tc => decide (3 ≤ tc.2)) hinner tgt
            rw [ht] at hft
            simp only [decide_eq_true_eq] at hft
            by_cases hc : 3 ≤ c
            · exfalso
              rw [if_pos hc] at hft
              have hmem := mem_of_findVal_eq_some hft
              rw [List.isEmpty_iff] at he
              simp [he] at hmem
            · simp only
              rw [if_pos (by omega)]
      · rw [if_neg he]
        simp only
        have hft := findVal_filter tgts (fun tc => decide (3 ≤ tc.2)) hinner tgt
        simp only [decide_eq_true_eq] at hft
        rw [hft]
        cases ht : findVal tgts tgt with
        | none => rfl
        | some c =>
            simp only
            by_cases hc : 3 ≤ c
            · rw [if_pos hc, if_neg (by omega)]
            · rw [if_neg hc, if_pos (by omega)]

/-- `UPTAgent.learn_from_feedback`: when the outcome is a success and both
protocol names are truthy (non-empty), insert-or-initialise the
`(source, target)` counter and add 1; otherwise only log. -/
def learnFromFeedback (patterns : Patterns) (success : Bool)
    (src tgt : String) : Patterns :=
  if success = true ∧ src ≠ "" ∧ tgt ≠ "" then
    let cur := (findVal patterns src).getD []
    let c := (findVal cur tgt).getD 0
    setVal patterns src (setVal cur tgt (c + 1))
  else patterns

/-- The shared knowledge state (`protocol_knowledge`), restricted to the two
gossiped fields. -/
structure Knowledge where
  protocols : Protocols
  translation_patterns : Patterns
  deriving DecidableEq, Repr

/-- `UPTAgent.merge_knowledge` applied to a whole state. -/
def mergeKnowledge (st : Knowledge) (protos : Protocols) (pats : Patterns) :
    Knowledge :=
  ⟨mergeProtos st.protocols protos, mergePatterns st.translation_patterns pats⟩

/-- A decoded gossip datagram (`knowledge` in
`MulticastKnowledgeSharing._receive_knowledge`). -/
structure GossipMsg where
  node_id : String
  protocols : Protocols
  translation_patterns : Patterns
  signature : String
  deriving DecidableEq, Repr

/-- `MulticastKnowledgeSharing._receive_knowledge`, one delivered message:
skip the message when its `node_id` equals our own; skip (log) when the
signature does not equal the one recomputed over the `protocols` and
`translation_patterns` fields (`_verify_signature` recomputes
`_sign_knowledge` on those two fields, here the deterministic function
`sgn`); otherwise call `merge_knowledge`. -/
def receiveKnowledge (sgn : Protocols → Patterns → String) (selfId : String)
    (st : Knowledge) (msg : GossipMsg) : Knowledge :=
  if msg.node_id = selfId then st
  else if msg.signature ≠ sgn msg.protocols msg.translation_patterns then st
  else mergeKnowledge st msg.protocols msg.translation_patterns

/-- One routing decision as built by `UPTAgent.make_decision` (the
`decision` dict); the timestamp and hash-based id are taken as inputs of
the embedding since they come from the wall clock. -/
structure RoutingDecision where
  source_protocol : String
  target_protocol : String
  confidence : ℚ
  estimated_latency_ms : ℚ
  timestamp : String
  decision_id : Int
  deriving DecidableEq, Repr

/-- `self.decision_memory.append(decision)` on a
`deque(maxlen=1000)`: append on the right, evicting from the left
whatever exceeds the capacity of 1000. -/
def pushDecision (ledger : List RoutingDecision) (d : RoutingDecision) :
    List RoutingDecision :=
  let l := ledger ++ [d]
  l.drop (l.length - 1000)

/-- A concrete decision, distinguished by its id: used to exercise the
ledger on a run of 1001 distinct insertions. -/
def sampleDecision (i : Nat) : RoutingDecision :=
  { source_protocol := "HTTP"
    target_protocol := "MQTT"
    confidence := 6 / 10
    estimated_latency_ms := 10
    timestamp := "t"
    decision_id := (i : Int) }

/-- Decisions number 2 to 1001 of the 1001-insertion run. -/
def sampleTail : List RoutingDecision :=
  (List.range 1000).map (fun i => sampleDecision (i + 1))

/-- `UPTAgent.calculate_confidence`: `min(1.0, success_count / 10.0)` when a
learned pattern exists, else the fixed default `0.6`. -/
def calculateConfidence (patterns : Patterns) (src tgt : String) : ℚ :=
  match findVal2 patterns src tgt with
  | some c => min 1 ((c : ℚ) / 10)
  | none => 6 / 10

/-- Python `max(items, key=lambda x: x[1])` over a nonempty list: keep the
current best unless a strictly larger count appears. -/
def maxByCount (x : String × Int) (xs : List (String × Int)) : String × Int :=
  xs.foldl (fun best y => if best.2 < y.2 then y else best) x

/-- Substring containment, Python's `needle in hay` on strings. -/
def strContains (hay needle : String) : Bool :=
  decide (needle.data <:+: hay.data)

/-- `UPTAgent.choose_best_translation_target`: prefer the learned target
with the highest success count; otherwise the fixed substring table
HTTP→MQTT, MQTT→HTTP, BTC→HTTP, TCP→JSON; otherwise `None`. -/
def chooseBestTranslationTarget (patterns : Patterns) (src : String) :
    Option String :=
  match findVal patterns src with
  | some (t :: ts) => some (maxByCount t ts).1
  | _ =>
      if strContains src "HTTP" then some "MQTT"
      else if strContains src "MQTT" then some "HTTP"
      else if strContains src "BTC" then some "HTTP"
      else if strContains src "TCP" then some "JSON"
      else none

/-- `UPTAgent.make_decision`: the target comes from the routing table when
present (`routing_table.get(source, {}).get('target', 'HTTP')`), with the
generic default target `'HTTP'`; confidence and latency are computed from
the knowledge store. -/
def makeDecision (patterns : Patterns) (routing_table : List (String × String))
    (src : String) (now : String) (decId : Int) : RoutingDecision :=
  let tgt := (findVal routing_table src).getD "HTTP"
  { source_protocol := src
    target_protocol := tgt
    confidence := calculateConfidence patterns src tgt
    estimated_latency_ms := 10
    timestamp := now
    decision_id := decId }

/-- `LoadBalancer.select_translator` after the optional node refresh (an
I/O step): filter the configured nodes through the health probe (`health`),
fall back to the first configured node when none is healthy, otherwise
weight the healthy nodes by `(1/(load+0.1)) * (1 + priority/10)` and draw
one via `random.choices` (the draw `pick` is an input of the embedding).
`none` models the `IndexError` on an empty node list. -/
def selectTranslator (health : String → Bool)
    (pick : List String → List ℚ → String) (load : String → ℚ)
    (priority : ℚ) (nodes : List String) : Option String :=
  match nodes with
  | [] => none
  | n0 :: _ =>
      let healthy := nodes.filter health
      if healthy.isEmpty then some n0
      else
        let weights := healthy.map (fun n => (1 / (load n + 1 / 10)) * (1 + priority / 10))
        some (pick healthy weights)

/-- A raw packet: a byte string. -/
abbrev Bytes := List (Fin 256)

/-- The feature vector computed per packet by `UPTSniffer.analyze_packets`:
`[length, int(header_rhythm, 16), payload_breathing, response_tells]`. -/
structure Fingerprint where
  length : Nat
  header_signature : Nat
  payload_modulus : Nat
  trailer_bits : Nat
  deriving DecidableEq, Repr

/-- `int(raw[:4].hex(), 16)` for at least four bytes (the big-endian value
of the first four bytes), else `int("0000", 16) = 0`. -/
def headerSignature (raw : Bytes) : Nat :=
  match raw with
  | b0 :: b1 :: b2 :: b3 :: _ =>
      b0.val * 16777216 + b1.val * 65536 + b2.val * 256 + b3.val
  | _ => 0

/-- `raw[-1] & 0b00001111 if raw else 0`. -/
def trailerBits (raw : Bytes) : Nat :=
  match raw.getLast? with
  | some b => b.val % 16
  | none => 0

/-- The fingerprint-extraction step of `UPTSniffer.analyze_packets`,
as a total function of the raw bytes. -/
def extractFingerprint (raw : Bytes) : Fingerprint :=
  { length := raw.length
    header_signature := headerSignature raw
    payload_modulus := raw.length % 8
    trailer_bits := trailerBits raw }

/-- Lowercase hex digit, as produced by Python's `bytes.hex()`. -/
def hexDigit (n : Nat) : Char :=
  if n < 10 then Char.ofNat (48 + n) else Char.ofNat (87 + n)

/-- `raw[:4].hex() if len(raw) >= 4 else "0000"`. -/
def headerRhythm (raw : Bytes) : String :=
  match raw with
  | b0 :: b1 :: b2 :: b3 :: _ =>
      String.mk ([b0, b1, b2, b3].foldr
        (fun b acc => hexDigit (b.val / 16) :: hexDigit (b.val % 16) :: acc) [])
  | _ => "0000"

/-- One record of `upt_protocol_dna.json` as read by
`UPTTranslator.load_protocol_dna` (the nested `fingerprint` dict is
flattened into fields). -/
structure DNAEntry where
  protocol_name : String
  header_rhythm : String
  payload_breathing : Nat
  response_tells : Nat
  deriving DecidableEq, Repr

/-- `UPTTranslator.identify_protocol`: empty input short-circuits to
`'UNKNOWN'` before the DNA table is consulted; otherwise the first table
entry whose three fingerprint fields all match gives the protocol name,
and `'UNKNOWN'` is returned when none matches. -/
def identifyProtocol (dna : List DNAEntry) (packet : Bytes) : String :=
  if packet.isEmpty then "UNKNOWN"
  else
    let hr := headerRhythm packet
    let pb := packet.length % 8
    let rt := trailerBits packet
    match dna.find? (fun e =>
        e.header_rhythm == hr && e.payload_breathing == pb &&
        e.response_tells == rt) with
    | some e => e.protocol_name
    | none => "UNKNOWN"

/-! ## Claim theorems -/

/-- C9: fingerprint extraction is a total, deterministic function of the raw
bytes: equal inputs yield equal fingerprints, inputs shorter than 4 bytes get
the fixed zero header signature, and the empty input yields the all-zero
fingerprint `{length = 0, header_signature = 0, payload_modulus = 0,
trailer_bits = 0}`. -/
theorem fingerprint_total_deterministic :
    (∀ a b : Bytes, a = b → extractFingerprint a = extractFingerprint b) ∧
    (∀ raw : Bytes, raw.length < 4 →
        (extractFingerprint raw).header_signature = 0) ∧
    extractFingerprint [] = ⟨0, 0, 0, 0⟩ := by
  refine ⟨fun a b h => by rw [h], fun raw h => ?_, rfl⟩
  match raw with
  | [] => rfl
  | [_] => rfl
  | [_, _] => rfl
  | [_, _, _] => rfl
  | _ :: _ :: _ :: _ :: _ => simp at h; omega

theorem fingerprint_total_deterministic_witness :
    extractFingerprint [(7 : Fin 256), 3] = extractFingerprint [7, 3] ∧
    (extractFingerprint [(7 : Fin 256), 3]).header_signature = 0 :=
  ⟨fingerprint_total_deterministic.1 [7, 3] [7, 3] rfl,
   fingerprint_total_deterministic.2.1 [7, 3] (by decide)⟩

/-- C10: `identify_protocol` returns `"UNKNOWN"` for every empty byte
sequence without consulting the protocol-DNA table, even when the table
contains an entry whose fingerprint (`header_rhythm "0000"`,
`payload_breathing 0`, `response_tells 0`) equals the empty-input
fingerprint. -/
theorem identify_empty_unknown :
    (∀ dna : List DNAEntry, identifyProtocol dna [] = "UNKNOWN") ∧
    identifyProtocol [⟨"Protocol_0", "0000", 0, 0⟩] [] = "UNKNOWN" :=
  ⟨fun _ => rfl, rfl⟩

/-- C8: when no translator endpoint passes the health probe,
`select_translator` deterministically returns the first configured endpoint
(rather than raising), for every metrics state and any nonempty node
list. -/
theorem select_translator_unhealthy_fallback (health : String → Bool)
    (pick : List String → List ℚ → String) (load : String → ℚ)
    (priority : ℚ) (nodes : List String) (hne : nodes ≠ [])
    (hun : ∀ n ∈ nodes, health n = false) :
    selectTranslator health pick load priority nodes = nodes.head? := by
  match nodes with
  | [] => exact absurd rfl hne
  | n0 :: rest =>
      have hfil : (n0 :: rest).filter health = [] :=
        List.filter_eq_nil_iff.mpr fun a ha => by simp [hun a ha]
      simp [selectTranslator, hfil]

theorem select_translator_unhealthy_fallback_witness :
    selectTranslator (fun _ => false) (fun h _ => h.headD "") (fun _ => 0) 5
      ["http://localhost:8888", "http://localhost:8889"] =
      some "http://localhost:8888" :=
  select_translator_unhealthy_fallback (fun _ => false) (fun h _ => h.headD "")
    (fun _ => 0) 5 ["http://localhost:8888", "http://localhost:8889"]
    (by simp) (fun n _ => rfl)

/-- C6: the routing confidence equals `min(1.0, success_count/10)` when a
learned `(source, target)` pattern exists, equals the fixed default `0.6`
otherwise, and lies in `[0, 1]` whenever all stored success counts are
non-negative. -/
theorem confidence_formula_spec :
    (∀ (patterns : Patterns) (src tgt : String) (c : Int),
        findVal2 patterns src tgt = some c →
        calculateConfidence patterns src tgt = min 1 ((c : ℚ) / 10)) ∧
    (∀ (patterns : Patterns) (src tgt : String),
        findVal2 patterns src tgt = none →
        calculateConfidence patterns src tgt = 6 / 10) ∧
    (∀ (patterns : Patterns) (src tgt : String),
        (∀ p ∈ patterns, ∀ q ∈ p.2, (0 : Int) ≤ q.2) →
        0 ≤ calculateConfidence patterns src tgt ∧
          calculateConfidence patterns src tgt ≤ 1) := by
  refine ⟨fun patterns src tgt c h => by rw [calculateConfidence, h],
    fun patterns src tgt h => by rw [calculateConfidence, h], ?_⟩
  intro patterns src tgt hnn
  unfold calculateConfidence
  cases h : findVal2 patterns src tgt with
  | none => norm_num
  | some c =>
      have hc : (0 : Int) ≤ c := by
        unfold findVal2 at h
        cases hsrc : findVal patterns src with
        | none => rw [hsrc] at h; cases h
        | some tgts =>
            rw [hsrc] at h
            exact hnn (src, tgts) (mem_of_findVal_eq_some hsrc)
              (tgt, c) (mem_of_findVal_eq_some h)
      constructor
      · exact le_min (by norm_num)
          (div_nonneg (by exact_mod_cast hc) (by norm_num))
      · exact min_le_left _ _

theorem confidence_formula_spec_witness :
    calculateConfidence [("HTTP", [("MQTT", 12)])] "HTTP" "MQTT" =
      min 1 ((12 : ℚ) / 10) ∧
    (0 ≤ calculateConfidence [("HTTP", [("MQTT", 12)])] "HTTP" "JSON" ∧
      calculateConfidence [("HTTP", [("MQTT", 12)])] "HTTP" "JSON" ≤ 1) :=
  ⟨confidence_formula_spec.1 [("HTTP", [("MQTT", 12)])] "HTTP" "MQTT" 12
      (by decide),
   confidence_formula_spec.2.2 [("HTTP", [("MQTT", 12)])] "HTTP" "JSON"
      (by decide)⟩

/-- C2: a received gossip message whose `node_id` equals the receiving
node's own id, or whose signature differs from the signature recomputed
over its `protocols` and `translation_patterns` fields, is never merged
(the local state is unchanged); a non-self message with a matching
signature is merged. -/
theorem receive_gossip_discard_or_merge
    (sgn : Protocols → Patterns → String) (selfId : String) (st : Knowledge)
    (msg : GossipMsg) :
    (msg.node_id = selfId → receiveKnowledge sgn selfId st msg = st) ∧
    (msg.signature ≠ sgn msg.protocols msg.translation_patterns →
        receiveKnowledge sgn selfId st msg = st) ∧
    (msg.node_id ≠ selfId →
        msg.signature = sgn msg.protocols msg.translation_patterns →
        receiveKnowledge sgn selfId st msg =
          mergeKnowledge st msg.protocols msg.translation_patterns) := by
  refine ⟨fun hself => ?_, fun hsig => ?_, fun hself hsig => ?_⟩
  · simp [receiveKnowledge, hself]
  · by_cases hself : msg.node_id = selfId
    · simp [receiveKnowledge, hself]
    · simp [receiveKnowledge, hself, hsig]
  · simp [receiveKnowledge, hself, hsig]

theorem receive_gossip_discard_or_merge_witness :
    receiveKnowledge (fun _ _ => "cafe") "aaaa" ⟨[], []⟩
        ⟨"bbbb", [("0", ⟨"HTTP", 3⟩)], [("HTTP", [("MQTT", 2)])], "dead"⟩ =
      ⟨[], []⟩ ∧
    receiveKnowledge (fun _ _ => "cafe") "aaaa" ⟨[], []⟩
        ⟨"bbbb", [("0", ⟨"HTTP", 3⟩)], [("HTTP", [("MQTT", 2)])], "cafe"⟩ =
      mergeKnowledge ⟨[], []⟩ [("0", ⟨"HTTP", 3⟩)] [("HTTP", [("MQTT", 2)])] :=
  ⟨(receive_gossip_discard_or_merge (fun _ _ => "cafe") "aaaa" ⟨[], []⟩
      ⟨"bbbb", [("0", ⟨"HTTP", 3⟩)], [("HTTP", [("MQTT", 2)])], "dead"⟩).2.1
      (by decide),
   (receive_gossip_discard_or_merge (fun _ _ => "cafe") "aaaa" ⟨[], []⟩
      ⟨"bbbb", [("0", ⟨"HTTP", 3⟩)], [("HTTP", [("MQTT", 2)])], "cafe"⟩).2.2
      (by decide) rfl⟩

/-- C3 counterexample: the claim says `learn_from_feedback` increments the
`(source, target)` success count whenever `success` is true, but the code
additionally requires both protocol names to be truthy: with an empty
source name and a successful outcome no count is created or incremented. -/
theorem learn_feedback_empty_name_counterexample :
    learnFromFeedback [] true "" "MQTT" = [] ∧
    findVal2 (learnFromFeedback [] true "" "MQTT") "" "MQTT" = none := by
  constructor <;> decide

/-- C3 (amended): `learn_from_feedback` increments the success count of
`(source, target)` by exactly 1 when `success` is true and both protocol
names are non-empty (leaving every other pair unchanged); when `success`
is false it changes no count; and no success count is ever decreased. -/
theorem learn_feedback_increment_spec :
    (∀ (patterns : Patterns) (src tgt : String), src ≠ "" → tgt ≠ "" →
        findVal2 (learnFromFeedback patterns true src tgt) src tgt =
          some ((findVal2 patterns src tgt).getD 0 + 1) ∧
        ∀ s t : String, ¬(s = src ∧ t = tgt) →
          findVal2 (learnFromFeedback patterns true src tgt) s t =
            findVal2 patterns s t) ∧
    (∀ (patterns : Patterns) (src tgt : String),
        learnFromFeedback patterns false src tgt = patterns) ∧
    (∀ (patterns : Patterns) (success : Bool) (src tgt s t : String)
        (c : Int), findVal2 patterns s t = some c →
        ∃ c', findVal2 (learnFromFeedback patterns success src tgt) s t =
          some c' ∧ c ≤ c') := by
  have hguard : ∀ (patterns : Patterns) (src tgt : String), src ≠ "" →
      tgt ≠ "" → learnFromFeedback patterns true src tgt =
        setVal patterns src
          (setVal ((findVal patterns src).getD [])
            tgt ((findVal ((findVal patterns src).getD [])
              tgt).getD 0 + 1)) := by
    intro patterns src tgt hsrc htgt
    rw [learnFromFeedback, if_pos ⟨rfl, hsrc, htgt⟩]
  have hmain : ∀ (patterns : Patterns) (src tgt : String), src ≠ "" →
      tgt ≠ "" →
      findVal2 (learnFromFeedback patterns true src tgt) src tgt =
        some ((findVal2 patterns src tgt).getD 0 + 1) := by
    intro patterns src tgt hsrc htgt
    rw [hguard patterns src tgt hsrc htgt]
    unfold findVal2
    rw [findVal_setVal, if_pos rfl]
    dsimp only
    rw [findVal_setVal, if_pos rfl]
    cases hs : findVal patterns src with
    | none => simp [hs, findVal]
    | some tgts => simp [hs]
  have hother : ∀ (patterns : Patterns) (src tgt : String), src ≠ "" →
      tgt ≠ "" → ∀ s t : String, ¬(s = src ∧ t = tgt) →
      findVal2 (learnFromFeedback patterns true src tgt) s t =
        findVal2 patterns s t := by
    intro patterns src tgt hsrc htgt s t hne
    rw [hguard patterns src tgt hsrc htgt]
    unfold findVal2
    rw [findVal_setVal]
    by_cases hss : src = s
    · subst hss
      have htne : ¬ tgt = t := fun h => hne ⟨rfl, h.symm⟩
      rw [if_pos rfl]
      dsimp only
      rw [findVal_setVal, if_neg htne]
      cases hs : findVal patterns src with
      | none => simp [hs, findVal]
      | some tgts => simp [hs]
    · rw [if_neg hss]
  refine ⟨fun patterns src tgt hsrc htgt =>
      ⟨hmain patterns src tgt hsrc htgt, hother patterns src tgt hsrc htgt⟩,
    fun patterns src tgt => by rw [learnFromFeedback, if_neg (by simp)], ?_⟩
  intro patterns success src tgt s t c hc
  cases success with
  | false =>
      rw [learnFromFeedback, if_neg (by simp)]
      exact ⟨c, hc, le_refl c⟩
  | true =>
      by_cases hsrc : src = ""
      · rw [learnFromFeedback, if_neg (by simp [hsrc])]
        exact ⟨c, hc, le_refl c⟩
      · by_cases htgt : tgt = ""
        · rw [learnFromFeedback, if_neg (by simp [htgt])]
          exact ⟨c, hc, le_refl c⟩
        · by_cases hst : s = src ∧ t = tgt
          · obtain ⟨hs, ht⟩ := hst
            subst hs; subst ht
            refine ⟨c + 1, ?_, by omega⟩
            rw [hmain patterns s t hsrc htgt, hc]
            rfl
          · rw [hother patterns src tgt hsrc htgt s t hst]
            exact ⟨c, hc, le_refl c⟩

theorem learn_feedback_increment_spec_witness :
    findVal2 (learnFromFeedback [("HTTP", [("MQTT", 4)])] true "HTTP" "MQTT")
        "HTTP" "MQTT" = some 5 ∧
    learnFromFeedback [("HTTP", [("MQTT", 4)])] false "HTTP" "MQTT" =
      [("HTTP", [("MQTT", 4)])] :=
  ⟨by
    have h := (learn_feedback_increment_spec.1 [("HTTP", [("MQTT", 4)])]
      "HTTP" "MQTT" (by decide) (by decide)).1
    rw [h]; decide,
   learn_feedback_increment_spec.2.1 [("HTTP", [("MQTT", 4)])] "HTTP" "MQTT"⟩

/-- C4: `prune` removes exactly the `(source, target)` entries whose
success count is below the floor 3, removes source entries left with no
targets, increases no count, and leaves every entry at or above the floor
unchanged. -/
theorem prune_floor_spec :
    ∀ patterns : Patterns, PatternsWF patterns →
      (∀ (src tgt : String) (c : Int), findVal2 patterns src tgt = some c →
          c < 3 → findVal2 (prunePatterns patterns) src tgt = none) ∧
      (∀ (src tgt : String) (c : Int), findVal2 patterns src tgt = some c →
          3 ≤ c → findVal2 (prunePatterns patterns) src tgt = some c) ∧
      (∀ src tgt : String, findVal2 patterns src tgt = none →
          findVal2 (prunePatterns patterns) src tgt = none) ∧
      (∀ src : String, findVal (prunePatterns patterns) src ≠ some []) := by
  intro patterns hwf
  refine ⟨fun src tgt c h hlt => ?_, fun src tgt c h hge => ?_,
    fun src tgt h => ?_, fun src h => ?_⟩
  · rw [findVal2_prunePatterns patterns hwf, h]
    dsimp only
    rw [if_pos hlt]
  · rw [findVal2_prunePatterns patterns hwf, h]
    dsimp only
    rw [if_neg (by omega)]
  · rw [findVal2_prunePatterns patterns hwf, h]
  · rw [findVal_prunePatterns patterns hwf] at h
    cases hs : findVal patterns src with
    | none => rw [hs] at h; cases h
    | some tgts =>
        rw [hs] at h
        dsimp only at h
        by_cases he : (tgts.filter (fun tc => decide (3 ≤ tc.2))).isEmpty
        · rw [if_pos he] at h; cases h
        · rw [if_neg he] at h
          rw [Option.some_inj.mp h] at he
          simp at he

theorem prune_floor_spec_witness :
    findVal2 (prunePatterns [("HTTP", [("MQTT", 12), ("JSON", 1)]),
        ("TCP", [("HTTP", 2)])]) "HTTP" "MQTT" = some 12 ∧
    findVal2 (prunePatterns [("HTTP", [("MQTT", 12), ("JSON", 1)]),
        ("TCP", [("HTTP", 2)])]) "HTTP" "JSON" = none ∧
    findVal2 (prunePatterns [("HTTP", [("MQTT", 12), ("JSON", 1)]),
        ("TCP", [("HTTP", 2)])]) "TCP" "HTTP" = none :=
  ⟨(prune_floor_spec [("HTTP", [("MQTT", 12), ("JSON", 1)]),
      ("TCP", [("HTTP", 2)])] (by decide)).2.1 "HTTP" "MQTT" 12 (by decide)
      (by decide),
   (prune_floor_spec [("HTTP", [("MQTT", 12), ("JSON", 1)]),
      ("TCP", [("HTTP", 2)])] (by decide)).1 "HTTP" "JSON" 1 (by decide)
      (by decide),
   (prune_floor_spec [("HTTP", [("MQTT", 12), ("JSON", 1)]),
      ("TCP", [("HTTP", 2)])] (by decide)).1 "TCP" "HTTP" 2 (by decide)
      (by decide)⟩

/-- C1: merging snapshot A then B into a knowledge store yields the same
per-key protocol counts and translation-pattern success counts as merging
B then A; per key, unknown keys are inserted and known keys have their
counts summed; merging the same snapshot twice adds its counts twice; and
no existing count is ever decreased by a merge (given the data-model
invariant that snapshot counts are non-negative). -/
theorem merge_commutative_double_count :
    ∀ S A B : Knowledge,
      (keysOf A.protocols).Nodup → (keysOf B.protocols).Nodup →
      PatternsWF A.translation_patterns →
      PatternsWF B.translation_patterns →
      (∀ pd ∈ A.protocols, (0 : Int) ≤ pd.2.count) →
      (∀ p ∈ A.translation_patterns, ∀ q ∈ p.2, (0 : Int) ≤ q.2) →
      (∀ k, countOf (mergeProtos (mergeProtos S.protocols A.protocols)
            B.protocols) k
          = countOf (mergeProtos (mergeProtos S.protocols B.protocols)
            A.protocols) k) ∧
      (∀ s t, findVal2 (mergePatterns
            (mergePatterns S.translation_patterns A.translation_patterns)
            B.translation_patterns) s t
          = findVal2 (mergePatterns
            (mergePatterns S.translation_patterns B.translation_patterns)
            A.translation_patterns) s t) ∧
      (∀ k a, countOf S.protocols k = none →
          countOf A.protocols k = some a →
          countOf (mergeProtos S.protocols A.protocols) k = some a) ∧
      (∀ k c a, countOf S.protocols k = some c →
          countOf A.protocols k = some a →
          countOf (mergeProtos S.protocols A.protocols) k = some (c + a)) ∧
      (∀ k a, countOf A.protocols k = some a →
          countOf (mergeProtos (mergeProtos S.protocols A.protocols)
              A.protocols) k
            = some ((countOf S.protocols k).getD 0 + 2 * a)) ∧
      (∀ s t a, findVal2 A.translation_patterns s t = some a →
          findVal2 (mergePatterns
              (mergePatterns S.translation_patterns A.translation_patterns)
              A.translation_patterns) s t
            = some ((findVal2 S.translation_patterns s t).getD 0 + 2 * a)) ∧
      (∀ k c, countOf S.protocols k = some c →
          ∃ c', countOf (mergeProtos S.protocols A.protocols) k = some c' ∧
            c ≤ c') ∧
      (∀ s t c, findVal2 S.translation_patterns s t = some c →
          ∃ c', findVal2 (mergePatterns S.translation_patterns
            A.translation_patterns) s t = some c' ∧ c ≤ c') := by
  intro S A B hA hB hwA hwB hAnn hApnn
  refine ⟨?_, ?_, ?_, ?_, ?_, ?_, ?_, ?_⟩
  · intro k
    rw [countOf_mergeProtos (mergeProtos S.protocols A.protocols)
        B.protocols hB,
      countOf_mergeProtos S.protocols A.protocols hA,
      countOf_mergeProtos (mergeProtos S.protocols B.protocols)
        A.protocols hA,
      countOf_mergeProtos S.protocols B.protocols hB]
    cases countOf A.protocols k <;> cases countOf B.protocols k <;>
      cases countOf S.protocols k <;> dsimp only <;>
      simp only [Option.some.injEq] <;> omega
  · intro s t
    rw [findVal2_mergePatterns
        (mergePatterns S.translation_patterns A.translation_patterns)
        B.translation_patterns hwB,
      findVal2_mergePatterns S.translation_patterns
        A.translation_patterns hwA,
      findVal2_mergePatterns
        (mergePatterns S.translation_patterns B.translation_patterns)
        A.translation_patterns hwA,
      findVal2_mergePatterns S.translation_patterns
        B.translation_patterns hwB]
    cases findVal2 A.translation_patterns s t <;>
      cases findVal2 B.translation_patterns s t <;>
      cases findVal2 S.translation_patterns s t <;> dsimp only <;>
      simp only [Option.some.injEq] <;> omega
  · intro k a hS hA'
    rw [countOf_mergeProtos S.protocols A.protocols hA, hA', hS]
  · intro k c a hS hA'
    rw [countOf_mergeProtos S.protocols A.protocols hA, hA', hS]
  · intro k a hA'
    rw [countOf_mergeProtos (mergeProtos S.protocols A.protocols)
        A.protocols hA,
      countOf_mergeProtos S.protocols A.protocols hA, hA']
    cases hS : countOf S.protocols k <;> dsimp only <;>
      simp only [Option.some.injEq, Option.getD] <;> omega
  · intro s t a hA'
    rw [findVal2_mergePatterns
        (mergePatterns S.translation_patterns A.translation_patterns)
        A.translation_patterns hwA,
      findVal2_mergePatterns S.translation_patterns
        A.translation_patterns hwA, hA']
    cases hS : findVal2 S.translation_patterns s t <;> dsimp only <;>
      simp only [Option.some.injEq, Option.getD] <;> omega
  · intro k c hS
    rw [countOf_mergeProtos S.protocols A.protocols hA, hS]
    cases hA' : countOf A.protocols k with
    | none => exact ⟨c, rfl, le_refl c⟩
    | some a =>
        have ha : (0 : Int) ≤ a := by
          unfold countOf at hA'
          obtain ⟨pd, hpd, hcnt⟩ := Option.map_eq_some'.mp hA'
          have := hAnn (k, pd) (mem_of_findVal_eq_some hpd)
          simpa [hcnt] using this
        exact ⟨c + a, rfl, by omega⟩
  · intro s t c hS
    rw [findVal2_mergePatterns S.translation_patterns
      A.translation_patterns hwA, hS]
    cases hA' : findVal2 A.translation_patterns s t with
    | none => exact ⟨c, rfl, le_refl c⟩
    | some a =>
        have ha : (0 : Int) ≤ a := by
          unfold findVal2 at hA'
          cases hsrc : findVal A.translation_patterns s with
          | none => rw [hsrc] at hA'; cases hA'
          | some tgts =>
              rw [hsrc] at hA'
              exact hApnn (s, tgts) (mem_of_findVal_eq_some hsrc)
                (t, a) (mem_of_findVal_eq_some hA')
        exact ⟨c + a, rfl, by omega⟩

theorem merge_commutative_double_count_witness :
    countOf (mergeProtos (mergeProtos [("0", ⟨"HTTP", 5⟩)]
        [("0", ⟨"HTTP", 2⟩), ("1", ⟨"MQTT", 1⟩)]) [("1", ⟨"MQTT", 7⟩)]) "1"
      = countOf (mergeProtos (mergeProtos [("0", ⟨"HTTP", 5⟩)]
        [("1", ⟨"MQTT", 7⟩)]) [("0", ⟨"HTTP", 2⟩), ("1", ⟨"MQTT", 1⟩)]) "1" ∧
    findVal2 (mergePatterns (mergePatterns [("HTTP", [("MQTT", 3)])]
        [("HTTP", [("MQTT", 4)])]) [("HTTP", [("MQTT", 4)])]) "HTTP" "MQTT"
      = some ((findVal2 ([("HTTP", [("MQTT", 3)])] : Patterns)
          "HTTP" "MQTT").getD 0 + 2 * 4) := by
  have h := merge_commutative_double_count
    ⟨[("0", ⟨"HTTP", 5⟩)], [("HTTP", [("MQTT", 3)])]⟩
    ⟨[("0", ⟨"HTTP", 2⟩), ("1", ⟨"MQTT", 1⟩)], [("HTTP", [("MQTT", 4)])]⟩
    ⟨[("1", ⟨"MQTT", 7⟩)], [("TCP", [("JSON", 2)])]⟩
    (by decide) (by decide) (by decide) (by decide) (by decide) (by decide)
  exact ⟨h.1 "1", h.2.2.2.2.2.1 "HTTP" "MQTT" 4 (by decide)⟩

theorem length_pushDecision (l : List RoutingDecision) (d : RoutingDecision) :
    (pushDecision l d).length = min (l.length + 1) 1000 := by
  simp [pushDecision]
  omega

theorem foldl_pushDecision_eq (ds : List RoutingDecision) :
    ∀ acc : List RoutingDecision, acc.length ≤ 1000 →
      ds.foldl pushDecision acc =
        (acc ++ ds).drop ((acc.length + ds.length) - 1000) := by
  induction ds with
  | nil =>
      intro acc h
      simp [Nat.sub_eq_zero_of_le h]
  | cons d ds ih =>
      intro acc h
      rw [List.foldl_cons,
        ih (pushDecision acc d) (by rw [length_pushDecision]; omega),
        length_pushDecision]
      have h1 : pushDecision acc d =
          (acc ++ [d]).drop ((acc.length + 1) - 1000) := by
        simp [pushDecision]
      have hj : acc.length + 1 - 1000 ≤ (acc ++ [d]).length := by
        simp
        omega
      have h2 : (acc ++ [d]) ++ ds = acc ++ d :: ds := by
        simp
      rw [h1, ← List.drop_append_of_le_length hj, List.drop_drop, h2]
      exact congrArg (fun n => List.drop n (acc ++ d :: ds))
        (by simp only [List.length_cons]; omega)

/-- C5: the decision ledger (a `deque(maxlen=1000)` receiving `append`s)
never holds more than 1000 decisions, and after 1001 insertions starting
from an empty ledger the first-inserted decision is no longer present
while the most recently inserted one is. -/
theorem decision_ledger_bounded :
    (∀ (acc ds : List RoutingDecision), acc.length ≤ 1000 →
        (ds.foldl pushDecision acc).length ≤ 1000) ∧
    (∀ (d0 : RoutingDecision) (ds : List RoutingDecision),
        (d0 :: ds).Nodup → ds.length = 1000 →
        d0 ∉ (d0 :: ds).foldl pushDecision [] ∧
        ∀ dl, ds.getLast? = some dl →
          dl ∈ (d0 :: ds).foldl pushDecision []) := by
  constructor
  · intro acc ds h
    rw [foldl_pushDecision_eq ds acc h]
    simp
    omega
  · intro d0 ds hnd hlen
    have hfold : (d0 :: ds).foldl pushDecision [] = ds := by
      rw [foldl_pushDecision_eq (d0 :: ds) [] (by simp)]
      simp [hlen]
    rw [hfold]
    exact ⟨(List.nodup_cons.mp hnd).1,
      fun dl hdl => List.mem_of_getLast?_eq_some hdl⟩

theorem decision_ledger_bounded_witness :
    ((sampleDecision 0 :: sampleTail).foldl pushDecision []).length ≤ 1000 ∧
    sampleDecision 0 ∉ (sampleDecision 0 :: sampleTail).foldl pushDecision [] :=
  have hinj : Function.Injective sampleDecision := by
    intro i j h
    have := congrArg RoutingDecision.decision_id h
    simpa [sampleDecision] using this
  have hnd : (sampleDecision 0 :: sampleTail).Nodup := by
    rw [List.nodup_cons]
    constructor
    · intro hmem
      obtain ⟨i, _, heq⟩ := List.mem_map.mp hmem
      have : i + 1 = 0 := hinj heq
      omega
    · exact (List.nodup_range 1000).map
        (fun i j h => by have := hinj h; omega)
  ⟨decision_ledger_bounded.1 [] (sampleDecision 0 :: sampleTail) (by simp),
   (decision_ledger_bounded.2 (sampleDecision 0) sampleTail hnd
      (by simp [sampleTail])).1⟩

theorem maxByCount_mem_and_max (x : String × Int) (xs : List (String × Int)) :
    maxByCount x xs ∈ x :: xs ∧ ∀ q ∈ x :: xs, q.2 ≤ (maxByCount x xs).2 := by
  induction xs generalizing x with
  | nil => simp [maxByCount]
  | cons y ys ih =>
      have hz := ih (if x.2 < y.2 then y else x)
      have hstep : maxByCount x (y :: ys) =
          maxByCount (if x.2 < y.2 then y else x) ys := rfl
      rw [hstep]
      have hzx : (if x.2 < y.2 then y else x) = y ∨
          (if x.2 < y.2 then y else x) = x := by
        by_cases hxy : x.2 < y.2 <;> simp [hxy]
      have hxle : x.2 ≤ (if x.2 < y.2 then y else x).2 := by
        by_cases hxy : x.2 < y.2 <;> simp [hxy]
        omega
      have hyle : y.2 ≤ (if x.2 < y.2 then y else x).2 := by
        by_cases hxy : x.2 < y.2 <;> simp [hxy]
        omega
      constructor
      · rcases List.mem_cons.mp hz.1 with hm | hm
        · rcases hzx with hzy | hzx'
          · rw [hm, hzy]
            exact List.mem_cons_of_mem _ (List.mem_cons_self _ _)
          · rw [hm, hzx']
            exact List.mem_cons_self _ _
        · exact List.mem_cons_of_mem _ (List.mem_cons_of_mem _ hm)
      · intro q hq
        have hztop := hz.2 (if x.2 < y.2 then y else x)
          (List.mem_cons_self _ _)
        rcases List.mem_cons.mp hq with rfl | hq'
        · exact le_trans hxle hztop
        · rcases List.mem_cons.mp hq' with rfl | hq''
          · exact le_trans hyle hztop
          · exact hz.2 q (List.mem_cons_of_mem _ hq'')

/-- C7: target choice prefers the learned history (a target with maximal
success count is returned when the source has learned patterns), falls
back to the fixed substring table when there are none, and the generic
default target `"HTTP"` is used when the routing table is unresolved;
in particular with stored pattern HTTP→MQTT:12 the route targets MQTT
with confidence capped at 1.0. -/
theorem target_choice_spec :
    (∀ (patterns : Patterns) (src : String) (t : String × Int)
        (ts : List (String × Int)), findVal patterns src = some (t :: ts) →
        ∃ p : String × Int, p ∈ t :: ts ∧
          chooseBestTranslationTarget patterns src = some p.1 ∧
          ∀ q ∈ t :: ts, q.2 ≤ p.2) ∧
    (∀ (patterns : Patterns) (src : String),
        findVal patterns src = none ∨ findVal patterns src = some [] →
        chooseBestTranslationTarget patterns src =
          (if strContains src "HTTP" then some "MQTT"
           else if strContains src "MQTT" then some "HTTP"
           else if strContains src "BTC" then some "HTTP"
           else if strContains src "TCP" then some "JSON"
           else none)) ∧
    (∀ (patterns : Patterns) (rt : List (String × String))
        (src now : String) (decId : Int), findVal rt src = none →
        (makeDecision patterns rt src now decId).target_protocol = "HTTP") ∧
    (chooseBestTranslationTarget [("HTTP", [("MQTT", 12)])] "HTTP" =
        some "MQTT" ∧
      calculateConfidence [("HTTP", [("MQTT", 12)])] "HTTP" "MQTT" = 1 ∧
      (makeDecision [("HTTP", [("MQTT", 12)])] [("HTTP", "MQTT")] "HTTP"
          "t" 0).target_protocol = "MQTT" ∧
      (makeDecision [("HTTP", [("MQTT", 12)])] [("HTTP", "MQTT")] "HTTP"
          "t" 0).confidence = 1) := by
  refine ⟨?_, ?_, ?_, ?_, ?_, ?_, ?_⟩
  · intro patterns src t ts h
    refine ⟨maxByCount t ts, (maxByCount_mem_and_max t ts).1, ?_,
      (maxByCount_mem_and_max t ts).2⟩
    unfold chooseBestTranslationTarget
    rw [h]
  · intro patterns src h
    rcases h with h | h <;> unfold chooseBestTranslationTarget <;> rw [h]
  · intro patterns rt src now decId h
    unfold makeDecision
    rw [h]
    rfl
  · decide
  · norm_num [calculateConfidence, findVal2, findVal]
  · decide
  · norm_num [makeDecision, findVal, calculateConfidence, findVal2]

theorem target_choice_spec_witness :
    (∃ p : String × Int, p ∈ [("MQTT", (12 : Int)), ("JSON", 3)] ∧
        chooseBestTranslationTarget [("HTTP", [("MQTT", 12), ("JSON", 3)])]
          "HTTP" = some p.1 ∧
        ∀ q ∈ [("MQTT", (12 : Int)), ("JSON", 3)], q.2 ≤ p.2) ∧
    (makeDecision [] [] "Unknown" "t" 0).target_protocol = "HTTP" :=
  ⟨target_choice_spec.1 [("HTTP", [("MQTT", 12), ("JSON", 3)])] "HTTP"
      ("MQTT", 12) [("JSON", 3)] (by decide),
   target_choice_spec.2.2.1 [] [] "Unknown" "t" 0 rfl⟩

end UPT
